import Mathlib

/-!
Verification of the ImageAI custom classification trainer
(source file `imageai/Classification/Custom/__init__.py`).

The development shallowly embeds the parts of `ClassificationModelTrainer`
that the specification talks about:

* the best-checkpoint lifecycle inside `trainModel`'s epoch loop
  (`best_acc`, `prev_save_name`, `os.remove` followed by `torch.save`),
* the class-index mapping dump (`classes_dict` built from
  `sorted(self.__class_names)`),
* the per-phase running loss / running corrects accumulation and the
  division by the fixed per-split dataset size,
* the classifier-head surgery and transfer-learning freezing of
  `__set_training_param` / `__set_transfer_learning_mode`,
* the dataset binding checks of `setDataDirectory` / `__load_data`,
* the legacy densenet state-dict key remapping regex.
-/

namespace ImageAI

/-- A best-checkpoint file name.  In the source the name is the string
`model_type-dataset_name-test_acc_{best_acc:.5f}_epoch-{epoch}.pt`; it is
determined by the epoch index and the test accuracy, which we keep as the
identifying fields. -/
structure CkptName where
  epoch : Nat
  acc : ℚ
  deriving DecidableEq, Repr

/-- Filesystem-visible events emitted by `trainModel`: the one-time dump of
the class mapping json, `torch.save` of a checkpoint, and `os.remove` of a
superseded checkpoint. -/
inductive Event where
  | write_mapping (mapping : List (String × String))
  | write_ckpt (n : CkptName)
  | delete_ckpt (n : CkptName)
  deriving DecidableEq, Repr

/-- The mutable checkpoint-tracking state of the epoch loop: `best_acc`
(initialised to `0.0`) and `prev_save_name` (initialised to `""`, modelled
as `none`). -/
structure CkptState where
  best_acc : ℚ
  prev_save_name : Option CkptName
  deriving DecidableEq, Repr

/-- Initial state set up before the epoch loop:
`best_acc = 0.0`, `prev_save_name = ""`. -/
def initCkptState : CkptState := ⟨0, none⟩

/-- One test-phase checkpoint consideration, translated from

```
if phase == "test" and epoch_acc > best_acc:
    best_acc = epoch_acc
    recent_save_name = ...
    if prev_save_name:
        os.remove(os.path.join(model_directory, prev_save_name))
    best_model_weights = copy.deepcopy(self.__model.state_dict())
    torch.save(best_model_weights, os.path.join(model_directory, recent_save_name))
    prev_save_name = recent_save_name
```

The returned event list records the filesystem side effects in program
order: the delete of the previous checkpoint (when one exists) happens
before the save of the new one. -/
def considerCheckpoint (s : CkptState) (epoch : Nat) (acc : ℚ) :
    CkptState × List Event :=
  if s.best_acc < acc then
    let n : CkptName := ⟨epoch, acc⟩
    (⟨acc, some n⟩,
      (match s.prev_save_name with
        | some p => [Event.delete_ckpt p]
        | none => []) ++ [Event.write_ckpt n])
  else (s, [])

/-- The test-phase considerations of `for epoch in range(num_experiments)`,
one per epoch, given the list of per-epoch test accuracies.  Returns the
final checkpoint state and the emitted filesystem events. -/
def runCheckpoints : CkptState → Nat → List ℚ → CkptState × List Event
  | s, _, [] => (s, [])
  | s, epoch, a :: rest =>
    let step := considerCheckpoint s epoch a
    let tail := runCheckpoints step.1 (epoch + 1) rest
    (tail.1, step.2 ++ tail.2)

/-- The class mapping dumped to `{dataset_name}_model_classes.json`,
translated from

```
classes_dict = {}
class_list = sorted(self.__class_names)
for i in range(len(class_list)):
    classes_dict[str(i)] = class_list[i]
```

represented as the association list of (string key, class name) pairs in
insertion order. -/
def classes_dict (class_names : List String) : List (String × String) :=
  ((List.insertionSort (· ≤ ·) class_names).enum).map
    (fun p => (toString p.1, p.2))

/-- The filesystem event trace of one `trainModel` run: the class-mapping
dump happens once, before the epoch loop, then the loop emits the
checkpoint events. -/
def trainTrace (class_names : List String) (accs : List ℚ) : List Event :=
  Event.write_mapping (classes_dict class_names) ::
    (runCheckpoints initCkptState 0 accs).2

/-- Effect of one event on the set of checkpoint files present in the
model directory. -/
def applyEvent (fs : Finset CkptName) : Event → Finset CkptName
  | Event.write_ckpt n => insert n fs
  | Event.delete_ckpt n => fs.erase n
  | Event.write_mapping _ => fs

/-- Checkpoint files on disk after a list of events, starting from an empty
model directory. -/
def filesAfter (evs : List Event) : Finset CkptName :=
  evs.foldl applyEvent ∅

/-- Checkpoint files tracked by a checkpoint state: the file named by
`prev_save_name`, if any. -/
def prevFiles (s : CkptState) : Finset CkptName :=
  match s.prev_save_name with
  | some n => {n}
  | none => ∅

/-- Recognises the class-mapping dump event. -/
def isMappingWrite : Event → Bool
  | Event.write_mapping _ => true
  | _ => false

/-- Case analysis of one checkpoint consideration: either the accuracy does
not beat `best_acc` and nothing happens, or it does and the emitted events
are a lone save, or a delete of the previous file followed by the save. -/
lemma considerCheckpoint_shape (s : CkptState) (e : Nat) (a : ℚ) :
    (¬ s.best_acc < a ∧ considerCheckpoint s e a = (s, [])) ∨
    (s.best_acc < a ∧ s.prev_save_name = none ∧
      considerCheckpoint s e a =
        (⟨a, some ⟨e, a⟩⟩, [Event.write_ckpt ⟨e, a⟩])) ∨
    (∃ p, s.best_acc < a ∧ s.prev_save_name = some p ∧
      considerCheckpoint s e a =
        (⟨a, some ⟨e, a⟩⟩, [Event.delete_ckpt p, Event.write_ckpt ⟨e, a⟩])) := by
  by_cases h : s.best_acc < a
  · cases hp : s.prev_save_name with
    | none =>
      right; left
      exact ⟨h, rfl, by simp [considerCheckpoint, h, hp]⟩
    | some p =>
      right; right
      exact ⟨p, h, rfl, by simp [considerCheckpoint, h, hp]⟩
  · left
    exact ⟨h, by simp [considerCheckpoint, h]⟩

/-- The epoch loop never writes the class mapping: mapping events do not
occur among the checkpoint events. -/
lemma runCheckpoints_no_mapping (l : List ℚ) :
    ∀ (s : CkptState) (e : Nat), ∀ ev ∈ (runCheckpoints s e l).2,
      isMappingWrite ev = false := by
  induction l with
  | nil => intro s e ev h; simp [runCheckpoints] at h
  | cons a rest ih =>
    intro s e ev h
    simp only [runCheckpoints, List.mem_append] at h
    rcases h with h | h
    · rcases considerCheckpoint_shape s e a with ⟨_, hc⟩ | ⟨_, _, hc⟩ | ⟨p, _, _, hc⟩ <;>
        rw [hc] at h <;> simp at h <;>
        first
          | (subst h; rfl)
          | (rcases h with h | h <;> subst h <;> rfl)
    · exact ih _ _ ev h

/-- C8: the persisted class-index mapping is invariant under the discovery
order of class folders: permuting the class-name list leaves the dumped
`classes_dict` unchanged, because the dict is built from
`sorted(class_names)`. -/
theorem c8_mapping_perm_invariant (l l' : List String) (h : l.Perm l') :
    classes_dict l = classes_dict l' := by
  unfold classes_dict
  have hs : List.insertionSort (· ≤ ·) l = List.insertionSort (· ≤ ·) l' :=
    List.eq_of_perm_of_sorted
      ((List.perm_insertionSort _ l).trans
        (h.trans (List.perm_insertionSort _ l').symm))
      (List.sorted_insertionSort _ l) (List.sorted_insertionSort _ l')
  rw [hs]

/-- Witness for C8 at a concrete pair of permuted class-name lists. -/
theorem c8_mapping_perm_witness :
    classes_dict ["dog", "cat", "bird"] = classes_dict ["cat", "bird", "dog"] :=
  c8_mapping_perm_invariant _ _ (by decide)

/-- C3: the class-index mapping is written exactly once per run, before the
epoch loop starts (it is the first filesystem event of the trace), its keys
are the strings `"0"`, ..., `"N-1"` in order, and its values are the class
names sorted ascending. -/
theorem c3_class_mapping_written_once_sorted (class_names : List String)
    (accs : List ℚ) (_hne : class_names ≠ []) :
    (trainTrace class_names accs).head? =
        some (Event.write_mapping (classes_dict class_names)) ∧
    (trainTrace class_names accs).countP isMappingWrite = 1 ∧
    (classes_dict class_names).map Prod.fst =
        (List.range class_names.length).map (fun i => toString i) ∧
    List.Sorted (· ≤ ·) ((classes_dict class_names).map Prod.snd) ∧
    ((classes_dict class_names).map Prod.snd).Perm class_names := by
  have hlen : (List.insertionSort (· ≤ ·) class_names).length = class_names.length :=
    (List.perm_insertionSort _ _).length_eq
  have hsnd : (classes_dict class_names).map Prod.snd =
      List.insertionSort (· ≤ ·) class_names := by
    unfold classes_dict
    rw [List.map_map]
    have hf : (Prod.snd ∘ fun p : Nat × String => (toString p.1, p.2)) =
        (Prod.snd : Nat × String → String) := rfl
    rw [hf, List.enum_map_snd]
  refine ⟨rfl, ?_, ?_, ?_, ?_⟩
  · show List.countP isMappingWrite
        (Event.write_mapping (classes_dict class_names) ::
          (runCheckpoints initCkptState 0 accs).2) = 1
    rw [List.countP_cons_of_pos _ _ (by rfl)]
    have h0 : List.countP isMappingWrite (runCheckpoints initCkptState 0 accs).2 = 0 :=
      List.countP_eq_zero.mpr (by
        intro ev hev
        simp [runCheckpoints_no_mapping accs initCkptState 0 ev hev])
    rw [h0]
  · unfold classes_dict
    rw [List.map_map]
    have hf : (Prod.fst ∘ fun p : Nat × String => (toString p.1, p.2)) =
        ((fun i => toString i) ∘ (Prod.fst : Nat × String → Nat)) := rfl
    rw [hf, ← List.map_map, List.enum_map_fst, hlen]
  · rw [hsnd]
    exact List.sorted_insertionSort _ _
  · rw [hsnd]
    exact List.perm_insertionSort _ _

/-- The final `best_acc` of the epoch loop is the running maximum of the
test accuracies, seeded with the starting `best_acc`. -/
lemma runCheckpoints_best (l : List ℚ) :
    ∀ (s : CkptState) (e : Nat),
      ((runCheckpoints s e l).1).best_acc = l.foldl max s.best_acc := by
  induction l with
  | nil => intro s e; simp [runCheckpoints]
  | cons a rest ih =>
    intro s e
    rcases considerCheckpoint_shape s e a with ⟨h, hc⟩ | ⟨h, _, hc⟩ | ⟨p, h, _, hc⟩ <;>
        simp only [runCheckpoints, hc, List.foldl_cons] <;> rw [ih]
    · rw [max_eq_left (le_of_not_lt h)]
    · rw [max_eq_right (le_of_lt h)]
    · rw [max_eq_right (le_of_lt h)]

/-- The seed is below a running maximum. -/
lemma le_foldl_max (l : List ℚ) : ∀ b : ℚ, b ≤ l.foldl max b := by
  induction l with
  | nil => intro b; exact le_refl b
  | cons a rest ih =>
    intro b
    rw [List.foldl_cons]
    exact le_trans (le_max_left b a) (ih (max b a))

/-- A running maximum is the seed or an element of the list. -/
lemma foldl_max_mem (l : List ℚ) :
    ∀ b : ℚ, l.foldl max b = b ∨ l.foldl max b ∈ l := by
  induction l with
  | nil => intro b; left; rfl
  | cons a rest ih =>
    intro b
    rw [List.foldl_cons]
    rcases ih (max b a) with h | h
    · rcases le_total a b with hab | hab
      · left; rw [h, max_eq_left hab]
      · right; rw [h, max_eq_right hab]; exact List.mem_cons_self a rest
    · right; exact List.mem_cons_of_mem a h

/-- Every element of the list is below the running maximum. -/
lemma mem_le_foldl_max (l : List ℚ) : ∀ (b : ℚ) (x : ℚ), x ∈ l → x ≤ l.foldl max b := by
  induction l with
  | nil => intro b x hx; cases hx
  | cons a rest ih =>
    intro b x hx
    rw [List.foldl_cons]
    rcases List.mem_cons.mp hx with rfl | hx
    · exact le_trans (le_max_right b x) (le_foldl_max rest (max b x))
    · exact ih (max b a) x hx

/-- Running maxima of longer prefixes dominate those of shorter prefixes. -/
lemma foldl_max_take_mono (l : List ℚ) (b : ℚ) {i j : Nat} (h : i ≤ j) :
    (l.take i).foldl max b ≤ (l.take j).foldl max b := by
  conv_rhs => rw [← List.take_append_drop i (l.take j)]
  rw [List.foldl_append, List.take_take, min_eq_left h]
  exact le_foldl_max _ _

/-- Loop invariant of the checkpoint lifecycle: the checkpoint files on
disk are exactly the file tracked by `prev_save_name`, the tracked file's
accuracy is `best_acc`, and a run ending with no tracked file never changed
the state. -/
lemma runCheckpoints_invariant (l : List ℚ) :
    ∀ (s : CkptState) (e : Nat),
      (∀ n, s.prev_save_name = some n → n.acc = s.best_acc) →
      ((runCheckpoints s e l).2.foldl applyEvent (prevFiles s) =
          prevFiles (runCheckpoints s e l).1) ∧
      (∀ n, (runCheckpoints s e l).1.prev_save_name = some n →
          n.acc = (runCheckpoints s e l).1.best_acc) ∧
      ((runCheckpoints s e l).1.prev_save_name = none →
          s.prev_save_name = none ∧
          (runCheckpoints s e l).1.best_acc = s.best_acc) := by
  induction l with
  | nil =>
    intro s e hacc
    exact ⟨rfl, hacc, fun h => ⟨h, rfl⟩⟩
  | cons a rest ih =>
    intro s e hacc
    rcases considerCheckpoint_shape s e a with ⟨h, hc⟩ | ⟨h, hp, hc⟩ | ⟨p, h, hp, hc⟩
    · simp only [runCheckpoints, hc, List.nil_append]
      exact ih s (e + 1) hacc
    · simp only [runCheckpoints, hc]
      have hstep : ∀ n : CkptName,
          (some ⟨e, a⟩ : Option CkptName) = some n → n.acc = a := by
        intro n hn
        cases hn
        rfl
      have hfiles : prevFiles s = (∅ : Finset CkptName) := by
        unfold prevFiles
        rw [hp]
      obtain ⟨ih1, ih2, ih3⟩ := ih ⟨a, some ⟨e, a⟩⟩ (e + 1) hstep
      refine ⟨?_, ih2, ?_⟩
      · rw [List.cons_append, List.nil_append, List.foldl_cons]
        have : applyEvent (prevFiles s) (Event.write_ckpt ⟨e, a⟩) =
            prevFiles ⟨a, some ⟨e, a⟩⟩ := by
          rw [hfiles]
          rfl
        rw [this]
        exact ih1
      · intro hnone
        obtain ⟨habs, -⟩ := ih3 hnone
        exact absurd habs (by simp)
    · simp only [runCheckpoints, hc]
      have hstep : ∀ n : CkptName,
          (some ⟨e, a⟩ : Option CkptName) = some n → n.acc = a := by
        intro n hn
        cases hn
        rfl
      have hfiles : prevFiles s = ({p} : Finset CkptName) := by
        unfold prevFiles
        rw [hp]
      obtain ⟨ih1, ih2, ih3⟩ := ih ⟨a, some ⟨e, a⟩⟩ (e + 1) hstep
      refine ⟨?_, ih2, ?_⟩
      · rw [List.cons_append, List.cons_append, List.nil_append, List.foldl_cons,
          List.foldl_cons]
        have : applyEvent (applyEvent (prevFiles s) (Event.delete_ckpt p))
            (Event.write_ckpt ⟨e, a⟩) = prevFiles ⟨a, some ⟨e, a⟩⟩ := by
          rw [hfiles]
          show insert (⟨e, a⟩ : CkptName) (({p} : Finset CkptName).erase p) =
            prevFiles ⟨a, some ⟨e, a⟩⟩
          rw [Finset.erase_singleton]
          rfl
        rw [this]
        exact ih1
      · intro hnone
        obtain ⟨habs, -⟩ := ih3 hnone
        exact absurd habs (by simp)

/-- Claim C2's closing condition: after the run exactly one checkpoint file
path is current — `prev_save_name` names it, it is the only file on disk —
and it carries the maximum accuracy seen. -/
def exactlyOneCurrentMax (accs : List ℚ) : Prop :=
  ∃ n : CkptName,
    (runCheckpoints initCkptState 0 accs).1.prev_save_name = some n ∧
    n.acc ∈ accs ∧ (∀ a ∈ accs, a ≤ n.acc) ∧
    ∀ class_names, filesAfter (trainTrace class_names accs) = {n}

/-- C2 (amended): across any finite sequence of checkpoint considerations
the tracked best accuracy is monotonically non-decreasing and a
consideration with accuracy at most the current best is a no-op; provided
some accuracy exceeds the initial best of `0`, after the sequence exactly
one checkpoint file path is current and it carries the maximum accuracy
seen.  (The positivity proviso is the amendment: a run whose accuracies
never exceed `0` writes no checkpoint at all.) -/
theorem c2_checkpoint_monotone_exactly_one (accs : List ℚ)
    (h : ∃ a ∈ accs, 0 < a) :
    (∀ i j, i ≤ j →
      (runCheckpoints initCkptState 0 (accs.take i)).1.best_acc ≤
        (runCheckpoints initCkptState 0 (accs.take j)).1.best_acc) ∧
    (∀ (s : CkptState) (e : Nat) (a : ℚ), a ≤ s.best_acc →
      considerCheckpoint s e a = (s, [])) ∧
    exactlyOneCurrentMax accs := by
  have hinit : ∀ n : CkptName,
      initCkptState.prev_save_name = some n → n.acc = initCkptState.best_acc := by
    intro n hn
    exact absurd hn (by simp [initCkptState])
  obtain ⟨inv1, inv2, inv3⟩ := runCheckpoints_invariant accs initCkptState 0 hinit
  have hbestEq : (runCheckpoints initCkptState 0 accs).1.best_acc =
      accs.foldl max 0 := runCheckpoints_best accs initCkptState 0
  refine ⟨?_, ?_, ?_⟩
  · intro i j hij
    rw [runCheckpoints_best, runCheckpoints_best]
    exact foldl_max_take_mono accs initCkptState.best_acc hij
  · intro s e a ha
    simp [considerCheckpoint, not_lt.mpr ha]
  · obtain ⟨a, hamem, hapos⟩ := h
    have hbestPos : 0 < (runCheckpoints initCkptState 0 accs).1.best_acc := by
      rw [hbestEq]
      exact lt_of_lt_of_le hapos (mem_le_foldl_max accs 0 a hamem)
    cases hr : (runCheckpoints initCkptState 0 accs).1.prev_save_name with
    | none =>
      obtain ⟨-, habs⟩ := inv3 hr
      rw [habs] at hbestPos
      exact absurd hbestPos (by simp [initCkptState])
    | some n =>
      refine ⟨n, hr, ?_, ?_, ?_⟩
      · have hacc : n.acc = accs.foldl max 0 := by
          rw [inv2 n hr, hbestEq]
        rcases foldl_max_mem accs 0 with h0 | h0
        · rw [← hbestEq, ← inv2 n hr] at h0
          rw [← inv2 n hr] at hbestPos
          rw [h0] at hbestPos
          exact absurd hbestPos (lt_irrefl 0)
        · rw [hacc]
          exact h0
      · intro x hx
        rw [inv2 n hr, hbestEq]
        exact mem_le_foldl_max accs 0 x hx
      · intro class_names
        unfold filesAfter trainTrace
        rw [List.foldl_cons]
        have hmap : applyEvent ∅ (Event.write_mapping (classes_dict class_names)) =
            prevFiles initCkptState := rfl
        rw [hmap, inv1]
        unfold prevFiles
        rw [hr]

/-- Counterexample to C2 as stated: a single evaluate phase with accuracy
`0` (which never beats the initial best of `0.0`) ends the run with no
current checkpoint at all, so no checkpoint path corresponds to the
maximum accuracy seen. -/
theorem c2_counterexample : ¬ exactlyOneCurrentMax [(0 : ℚ)] := by
  rintro ⟨n, hn, -⟩
  have hnone : (runCheckpoints initCkptState 0 [(0 : ℚ)]).1.prev_save_name = none := by
    decide
  rw [hnone] at hn
  exact Option.noConfusion hn

/-- Witness for C2 (amended) at the concrete accuracy sequence `[1/2]`. -/
theorem c2_checkpoint_witness :
    (∀ i j, i ≤ j →
      (runCheckpoints initCkptState 0 (([(1 : ℚ)/2]).take i)).1.best_acc ≤
        (runCheckpoints initCkptState 0 (([(1 : ℚ)/2]).take j)).1.best_acc) ∧
    (∀ (s : CkptState) (e : Nat) (a : ℚ), a ≤ s.best_acc →
      considerCheckpoint s e a = (s, [])) ∧
    exactlyOneCurrentMax [(1 : ℚ)/2] :=
  c2_checkpoint_monotone_exactly_one [(1 : ℚ)/2] ⟨(1 : ℚ)/2, by simp, by norm_num⟩

/-- Traces produced by the epoch loop: every delete of a superseded
checkpoint is immediately followed by the save of the new, strictly better
checkpoint. -/
inductive DeleteThenWrite : List Event → Prop
  | nil : DeleteThenWrite []
  | mapping (m : List (String × String)) (rest : List Event) :
      DeleteThenWrite rest → DeleteThenWrite (Event.write_mapping m :: rest)
  | write (n : CkptName) (rest : List Event) :
      DeleteThenWrite rest → DeleteThenWrite (Event.write_ckpt n :: rest)
  | supersede (p n : CkptName) (rest : List Event) :
      p.acc < n.acc → DeleteThenWrite rest →
      DeleteThenWrite (Event.delete_ckpt p :: Event.write_ckpt n :: rest)

/-- The epoch loop only ever deletes a checkpoint as the first half of a
delete-then-write pair. -/
lemma runCheckpoints_deleteThenWrite (l : List ℚ) :
    ∀ (s : CkptState) (e : Nat),
      (∀ q, s.prev_save_name = some q → q.acc ≤ s.best_acc) →
      DeleteThenWrite (runCheckpoints s e l).2 := by
  induction l with
  | nil => intro s e _; exact DeleteThenWrite.nil
  | cons a rest ih =>
    intro s e hq
    rcases considerCheckpoint_shape s e a with ⟨h, hc⟩ | ⟨h, hp, hc⟩ | ⟨p, h, hp, hc⟩ <;>
        simp only [runCheckpoints, hc]
    · rw [List.nil_append]
      exact ih s (e + 1) hq
    · rw [List.cons_append, List.nil_append]
      refine DeleteThenWrite.write _ _ (ih ⟨a, some ⟨e, a⟩⟩ (e + 1) ?_)
      intro q hq'
      cases hq'
      exact le_refl a
    · rw [List.cons_append, List.cons_append, List.nil_append]
      refine DeleteThenWrite.supersede p ⟨e, a⟩ _
        (lt_of_le_of_lt (hq p hp) h) (ih ⟨a, some ⟨e, a⟩⟩ (e + 1) ?_)
      intro q hq'
      cases hq'
      exact le_refl a

/-- In a delete-then-write trace, whatever follows a delete event starts
with the write of a strictly better checkpoint. -/
lemma deleteThenWrite_split {t : List Event} (ht : DeleteThenWrite t) :
    ∀ (l₁ : List Event) (p : CkptName) (l₂ : List Event),
      t = l₁ ++ Event.delete_ckpt p :: l₂ →
      ∃ n l₃, l₂ = Event.write_ckpt n :: l₃ ∧ p.acc < n.acc := by
  induction ht with
  | nil =>
    intro l₁ p l₂ h
    cases l₁ <;> simp at h
  | mapping m rest hrest ih =>
    intro l₁ p l₂ h
    cases l₁ with
    | nil => simp at h
    | cons x l₁' =>
      rw [List.cons_append] at h
      injection h with h1 h2
      exact ih l₁' p l₂ h2
  | write n rest hrest ih =>
    intro l₁ p l₂ h
    cases l₁ with
    | nil => simp at h
    | cons x l₁' =>
      rw [List.cons_append] at h
      injection h with h1 h2
      exact ih l₁' p l₂ h2
  | supersede q n rest hlt hrest ih =>
    intro l₁ p l₂ h
    cases l₁ with
    | nil =>
      rw [List.nil_append] at h
      injection h with h1 h2
      injection h1 with h1
      subst h1
      exact ⟨n, rest, h2.symm, hlt⟩
    | cons x l₁' =>
      rw [List.cons_append] at h
      injection h with h1 h2
      cases l₁' with
      | nil =>
        rw [List.nil_append] at h2
        injection h2 with h3 h4
        exact Event.noConfusion h3
      | cons y l₁'' =>
        rw [List.cons_append] at h2
        injection h2 with h3 h4
        exact ih l₁'' p l₂ h4

/-- C1 as the spec states it: whenever the run's trace deletes a previous
checkpoint file, the superseding checkpoint (a write with strictly greater
accuracy) already appears earlier in the trace, i.e. the new file is on
disk in every state in which the previous file has been deleted. -/
def writesPrecedeDeletes (class_names : List String) (accs : List ℚ) : Prop :=
  ∀ (l₁ : List Event) (p : CkptName) (l₂ : List Event),
    trainTrace class_names accs = l₁ ++ Event.delete_ckpt p :: l₂ →
    ∃ n, Event.write_ckpt n ∈ l₁ ∧ p.acc < n.acc

/-- Counterexample to C1 as stated: with test accuracies `1/2` then `3/4`,
epoch 1 supersedes epoch 0's checkpoint, and the trace deletes the epoch-0
file (`os.remove`) strictly before the epoch-1 file is written
(`torch.save`), so there is a state with the old file deleted and the new
file not yet on disk. -/
theorem c1_counterexample :
    ¬ writesPrecedeDeletes [] [mkRat 1 2, mkRat 3 4] := by
  intro h
  have htrace : trainTrace [] [mkRat 1 2, mkRat 3 4] =
      [Event.write_mapping [], Event.write_ckpt ⟨0, mkRat 1 2⟩] ++
        Event.delete_ckpt ⟨0, mkRat 1 2⟩ :: [Event.write_ckpt ⟨1, mkRat 3 4⟩] := by
    decide
  obtain ⟨n, hmem, hacc⟩ := h _ _ _ htrace
  simp only [List.mem_cons, List.mem_singleton] at hmem
  rcases hmem with hmem | hmem | hmem
  · exact Event.noConfusion hmem
  · injection hmem with hmem
    rw [← hmem] at hacc
    exact lt_irrefl _ hacc
  · exact List.not_mem_nil _ hmem

/-- C1 (amended): the code deletes first, then writes: in every run trace,
each delete of a superseded checkpoint file is immediately followed by the
write of the new checkpoint (which has strictly greater accuracy).  So
there is an intermediate state in which the previous file has been deleted
and the new one not yet written, resolved by the write that immediately
follows; the write is never lost, but it completes after the delete, not
before. -/
theorem c1_delete_immediately_before_write (class_names : List String)
    (accs : List ℚ) (l₁ : List Event) (p : CkptName) (l₂ : List Event)
    (h : trainTrace class_names accs = l₁ ++ Event.delete_ckpt p :: l₂) :
    ∃ n l₃, l₂ = Event.write_ckpt n :: l₃ ∧ p.acc < n.acc := by
  have hgood : DeleteThenWrite (trainTrace class_names accs) := by
    unfold trainTrace
    refine DeleteThenWrite.mapping _ _
      (runCheckpoints_deleteThenWrite accs initCkptState 0 ?_)
    intro q hq
    simp [initCkptState] at hq
  exact deleteThenWrite_split hgood l₁ p l₂ h

/-- Witness for C1 (amended) at the concrete run with accuracies
`[1/2, 3/4]`: the delete of the epoch-0 checkpoint is immediately followed
by the write of the epoch-1 checkpoint. -/
theorem c1_delete_write_witness :
    ∃ n l₃, ([Event.write_ckpt ⟨1, mkRat 3 4⟩] : List Event) =
        Event.write_ckpt n :: l₃ ∧ (⟨0, mkRat 1 2⟩ : CkptName).acc < n.acc :=
  c1_delete_immediately_before_write [] [mkRat 1 2, mkRat 3 4]
    [Event.write_mapping [], Event.write_ckpt ⟨0, mkRat 1 2⟩] ⟨0, mkRat 1 2⟩
    [Event.write_ckpt ⟨1, mkRat 3 4⟩] (by decide)

/-- Witness for C3 at a concrete two-class dataset. -/
theorem c3_class_mapping_witness :
    (trainTrace ["dog", "cat"] []).head? =
        some (Event.write_mapping (classes_dict ["dog", "cat"])) ∧
    (trainTrace ["dog", "cat"] []).countP isMappingWrite = 1 ∧
    (classes_dict ["dog", "cat"]).map Prod.fst =
        (List.range (["dog", "cat"] : List String).length).map (fun i => toString i) ∧
    List.Sorted (· ≤ ·) ((classes_dict ["dog", "cat"]).map Prod.snd) ∧
    ((classes_dict ["dog", "cat"]).map Prod.snd).Perm ["dog", "cat"] :=
  c3_class_mapping_written_once_sorted ["dog", "cat"] [] (by decide)

/-- One mini-batch of a phase: its example count (`imgs.size(0)`), the
batch loss value (`loss.item()`), and the number of correct predictions in
the batch (`torch.sum(preds == labels.data)`, which is at most the batch
size). -/
structure Batch where
  size : Nat
  loss : ℚ
  corrects : Nat
  deriving DecidableEq, Repr

/-- Accumulation `running_loss += loss.item() * imgs.size(0)` over the
phase's batches, starting from `running_loss = 0.0`. -/
def running_loss (batches : List Batch) : ℚ :=
  batches.foldl (fun r b => r + b.loss * b.size) 0

/-- Accumulation `running_corrects += torch.sum(preds == labels.data)` over
the phase's batches, starting from `running_corrects = 0`. -/
def running_corrects (batches : List Batch) : Nat :=
  batches.foldl (fun r b => r + b.corrects) 0

/-- `epoch_loss = running_loss / self.__dataset_sizes[phase]`: division by
the fixed per-split example count, not the number of batches. -/
def epoch_loss (batches : List Batch) (split_size : Nat) : ℚ :=
  running_loss batches / split_size

/-- `epoch_acc = running_corrects.double() / self.__dataset_sizes[phase]`. -/
def epoch_acc (batches : List Batch) (split_size : Nat) : ℚ :=
  (running_corrects batches : ℚ) / split_size

/-- The corrects accumulator is the sum of the per-batch correct counts. -/
lemma running_corrects_eq_sum (batches : List Batch) :
    running_corrects batches = (batches.map Batch.corrects).sum := by
  suffices h : ∀ (l : List Batch) (r : Nat),
      l.foldl (fun r b => r + b.corrects) r = r + (l.map Batch.corrects).sum by
    have := h batches 0
    unfold running_corrects
    omega
  intro l
  induction l with
  | nil => intro r; simp
  | cons b rest ih =>
    intro r
    rw [List.foldl_cons, ih, List.map_cons, List.sum_cons]
    omega

/-- C4: for every phase, the reported epoch loss is the running loss sum
divided by the fixed per-split example count, the epoch accuracy is the
running correct count divided by the same count, and — because the batches
partition the split and each batch's correct count is at most its size —
the accuracy lies in `[0, 1]`. -/
theorem c4_epoch_metrics (batches : List Batch) (split_size : Nat)
    (hsize : (batches.map Batch.size).sum = split_size)
    (hb : ∀ b ∈ batches, b.corrects ≤ b.size)
    (hpos : 0 < split_size) :
    epoch_loss batches split_size = running_loss batches / split_size ∧
    epoch_acc batches split_size = (running_corrects batches : ℚ) / split_size ∧
    0 ≤ epoch_acc batches split_size ∧
    epoch_acc batches split_size ≤ 1 := by
  have hc : running_corrects batches ≤ split_size := by
    rw [running_corrects_eq_sum, ← hsize]
    exact List.sum_le_sum hb
  refine ⟨rfl, rfl, ?_, ?_⟩
  · exact div_nonneg (Nat.cast_nonneg _) (Nat.cast_nonneg _)
  · unfold epoch_acc
    rw [div_le_one (by exact_mod_cast hpos)]
    exact_mod_cast hc

/-- Witness for C4 at a concrete two-batch phase over a split of four
examples. -/
theorem c4_epoch_metrics_witness :
    epoch_loss [⟨2, 1, 2⟩, ⟨2, 3, 1⟩] 4 = running_loss [⟨2, 1, 2⟩, ⟨2, 3, 1⟩] / 4 ∧
    epoch_acc [⟨2, 1, 2⟩, ⟨2, 3, 1⟩] 4 =
        (running_corrects [⟨2, 1, 2⟩, ⟨2, 3, 1⟩] : ℚ) / 4 ∧
    0 ≤ epoch_acc [⟨2, 1, 2⟩, ⟨2, 3, 1⟩] 4 ∧
    epoch_acc [⟨2, 1, 2⟩, ⟨2, 3, 1⟩] 4 ≤ 1 :=
  c4_epoch_metrics [⟨2, 1, 2⟩, ⟨2, 3, 1⟩] 4 (by decide) (by decide) (by decide)

/-- A linear (fully connected) layer: `nn.Linear(in_features, out_features)`
together with the `requires_grad` flag of its parameters.  A freshly
constructed `nn.Linear` has `requires_grad = true`. -/
structure LinearLayer where
  in_features : Nat
  out_features : Nat
  requires_grad : Bool
  deriving DecidableEq, Repr

/-- The three classification-head shapes the source code knows how to
replace: `model.classifier[1]` (mobilenet_v2's two-stage classifier, second
stage replaced), `model.classifier` (densenet121), and `model.fc`
(resnet50, inception_v3). -/
inductive Head where
  | twoStage (second : LinearLayer)
  | classifierAttr (layer : LinearLayer)
  | fcAttr (layer : LinearLayer)
  deriving DecidableEq, Repr

/-- A non-head (backbone) parameter of the model, carrying its
`requires_grad` flag. -/
structure Param where
  requires_grad : Bool
  deriving DecidableEq, Repr

/-- The model: its backbone parameters and its classification head. -/
structure Model where
  backbone : List Param
  head : Head
  deriving DecidableEq, Repr

/-- The supported architectures, as selected by `setModelAsMobileNetV2`,
`setModelAsResNet50`, `setModelAsInceptionV3`, `setModelAsDenseNet121`. -/
inductive ModelType where
  | mobilenet_v2
  | resnet50
  | inception_v3
  | densenet121
  deriving DecidableEq, Repr

/-- The final linear layer of a head. -/
def headLayer : Head → LinearLayer
  | Head.twoStage l => l
  | Head.classifierAttr l => l
  | Head.fcAttr l => l

/-- Whether the model's head has the attribute shape the architecture's
replacement branch expects (the Python code would raise an attribute error
otherwise). -/
def shapeMatches : ModelType → Head → Bool
  | ModelType.mobilenet_v2, Head.twoStage _ => true
  | ModelType.densenet121, Head.classifierAttr _ => true
  | ModelType.resnet50, Head.fcAttr _ => true
  | ModelType.inception_v3, Head.fcAttr _ => true
  | _, _ => false

/-- The head surgery of `__set_training_param`, translated from

```
if self.__model_type == "mobilenet_v2":
    in_features = self.__model.classifier[1].in_features
    self.__model.classifier[1] = nn.Linear(in_features, len(self.__class_names))
elif self.__model_type == "densenet121":
    in_features = self.__model.classifier.in_features
    self.__model.classifier = nn.Linear(in_features, len(self.__class_names))
else:
    in_features = self.__model.fc.in_features
    self.__model.fc = nn.Linear(in_features, len(self.__class_names))
```

The new layer keeps the old layer's `in_features`, gets `class_count`
output features, and is trainable by default.  `none` models the attribute
error raised when the head does not have the accessed shape. -/
def replaceHead (mt : ModelType) (m : Model) (class_count : Nat) : Option Model :=
  match mt with
  | ModelType.mobilenet_v2 =>
    match m.head with
    | Head.twoStage second =>
      some { m with head := Head.twoStage ⟨second.in_features, class_count, true⟩ }
    | _ => none
  | ModelType.densenet121 =>
    match m.head with
    | Head.classifierAttr l =>
      some { m with head := Head.classifierAttr ⟨l.in_features, class_count, true⟩ }
    | _ => none
  | _ =>
    match m.head with
    | Head.fcAttr l =>
      some { m with head := Head.fcAttr ⟨l.in_features, class_count, true⟩ }
    | _ => none

/-- Marks one parameter non-trainable (`param.requires_grad = False`). -/
def freezeParam (_ : Param) : Param := ⟨false⟩

/-- Marks the parameters of a head non-trainable. -/
def freezeHead : Head → Head
  | Head.twoStage l => Head.twoStage ⟨l.in_features, l.out_features, false⟩
  | Head.classifierAttr l => Head.classifierAttr ⟨l.in_features, l.out_features, false⟩
  | Head.fcAttr l => Head.fcAttr ⟨l.in_features, l.out_features, false⟩

/-- `__set_transfer_learning_mode`, restricted to what it does to
trainability: it loads the checkpoint's values (which leaves every
`requires_grad` flag and every shape unchanged) and then, iff the
transfer-learning mode is `"freeze_all"`, sets `requires_grad = False` on
every parameter of the model — head included, since the head has not been
replaced yet at this point. -/
def set_transfer_learning_mode (mode : String) (m : Model) : Model :=
  if mode = "freeze_all" then
    { backbone := m.backbone.map freezeParam, head := freezeHead m.head }
  else m

/-- `__set_training_param`: if `self.__model_path` is a non-empty string,
apply the transfer-learning step, then always perform the head surgery. -/
def set_training_param (mt : ModelType) (model_path : String) (mode : String)
    (m : Model) (class_count : Nat) : Option Model :=
  let m1 := if model_path ≠ "" then set_transfer_learning_mode mode m else m
  replaceHead mt m1 class_count

/-- The model-preparation prefix of `trainModel`: `self.__model_path`
starts out as `""` and is overwritten only when a truthy
`transfer_from_model` argument is passed, then `__set_training_param`
runs. -/
def trainModel_setup (mt : ModelType) (transfer_from_model : Option String)
    (mode : String) (m : Model) (class_count : Nat) : Option Model :=
  let model_path :=
    match transfer_from_model with
    | some p => p
    | none => ""
  set_training_param mt model_path mode m class_count

/-- Freezing a head does not change which attribute shape it has. -/
lemma shapeMatches_freezeHead (mt : ModelType) (h : Head) :
    shapeMatches mt (freezeHead h) = shapeMatches mt h := by
  cases mt <;> cases h <;> rfl

/-- Full description of a successful head surgery: the backbone is kept,
the new final layer is `nn.Linear(old.in_features, class_count)` with
`requires_grad = true`, and the head shape follows the architecture's
branch. -/
lemma replaceHead_spec (mt : ModelType) (m : Model) (class_count : Nat)
    (h : shapeMatches mt m.head = true) :
    ∃ m', replaceHead mt m class_count = some m' ∧
      m'.backbone = m.backbone ∧
      headLayer m'.head =
        ⟨(headLayer m.head).in_features, class_count, true⟩ ∧
      (match mt with
        | ModelType.mobilenet_v2 => ∃ l, m'.head = Head.twoStage l
        | ModelType.densenet121 => ∃ l, m'.head = Head.classifierAttr l
        | _ => ∃ l, m'.head = Head.fcAttr l) := by
  obtain ⟨backbone, head⟩ := m
  cases mt <;> cases head <;>
    first
      | exact Bool.noConfusion h
      | exact ⟨_, rfl, rfl, rfl, ⟨_, rfl⟩⟩

/-- C5: for every supported architecture and class count, the head surgery
succeeds on the matching head shape and yields a head of the same shape
whose final layer has exactly `class_count` output features and the old
layer's `in_features` (the backbone's penultimate feature width); the
backbone is untouched. -/
theorem c5_head_replacement (mt : ModelType) (m : Model) (class_count : Nat)
    (h : shapeMatches mt m.head = true) :
    ∃ m', replaceHead mt m class_count = some m' ∧
      (headLayer m'.head).out_features = class_count ∧
      (headLayer m'.head).in_features = (headLayer m.head).in_features ∧
      m'.backbone = m.backbone ∧
      (match mt with
        | ModelType.mobilenet_v2 => ∃ l, m'.head = Head.twoStage l
        | ModelType.densenet121 => ∃ l, m'.head = Head.classifierAttr l
        | _ => ∃ l, m'.head = Head.fcAttr l) := by
  obtain ⟨m', hm', hbb, hlayer, hshape'⟩ := replaceHead_spec mt m class_count h
  exact ⟨m', hm', by rw [hlayer], by rw [hlayer], hbb, hshape'⟩

/-- Witness for C5: resnet50 with a 2048-wide `fc` head and 5 classes. -/
theorem c5_head_replacement_witness :
    ∃ m', replaceHead ModelType.resnet50 ⟨[], Head.fcAttr ⟨2048, 1000, true⟩⟩ 5 =
        some m' ∧
      (headLayer m'.head).out_features = 5 ∧
      (headLayer m'.head).in_features =
        (headLayer (⟨[], Head.fcAttr ⟨2048, 1000, true⟩⟩ : Model).head).in_features ∧
      m'.backbone = (⟨[], Head.fcAttr ⟨2048, 1000, true⟩⟩ : Model).backbone ∧
      (match ModelType.resnet50 with
        | ModelType.mobilenet_v2 => ∃ l, m'.head = Head.twoStage l
        | ModelType.densenet121 => ∃ l, m'.head = Head.classifierAttr l
        | _ => ∃ l, m'.head = Head.fcAttr l) :=
  c5_head_replacement ModelType.resnet50 ⟨[], Head.fcAttr ⟨2048, 1000, true⟩⟩ 5
    (by decide)

/-- C6: on the transfer-learning path (a non-empty checkpoint path), mode
`"freeze_all"` leaves every backbone parameter non-trainable while the
freshly replaced head is trainable, and mode `"fine_tune_all"` leaves the
backbone parameters untouched — hence trainable when they started
trainable — with the head trainable as well. -/
theorem c6_freeze_modes (mt : ModelType) (m : Model) (class_count : Nat)
    (path : String) (hpath : path ≠ "")
    (hshape : shapeMatches mt m.head = true)
    (hinit : ∀ p ∈ m.backbone, p.requires_grad = true) :
    (∃ m', set_training_param mt path "freeze_all" m class_count = some m' ∧
      (∀ p ∈ m'.backbone, p.requires_grad = false) ∧
      (headLayer m'.head).requires_grad = true) ∧
    (∃ m', set_training_param mt path "fine_tune_all" m class_count = some m' ∧
      m'.backbone = m.backbone ∧
      (∀ p ∈ m'.backbone, p.requires_grad = true) ∧
      (headLayer m'.head).requires_grad = true) := by
  constructor
  · have hshape' : shapeMatches mt (freezeHead m.head) = true := by
      rw [shapeMatches_freezeHead]; exact hshape
    obtain ⟨m', hm', hbb, hlayer, -⟩ :=
      replaceHead_spec mt ⟨m.backbone.map freezeParam, freezeHead m.head⟩
        class_count hshape'
    refine ⟨m', ?_, ?_, ?_⟩
    · show replaceHead mt
        (if path ≠ "" then set_transfer_learning_mode "freeze_all" m else m)
        class_count = some m'
      rw [if_pos hpath]
      show replaceHead mt (set_transfer_learning_mode "freeze_all" m) class_count =
        some m'
      unfold set_transfer_learning_mode
      rw [if_pos rfl]
      exact hm'
    · intro p hp
      rw [hbb] at hp
      simp only [List.mem_map] at hp
      obtain ⟨q, -, hq⟩ := hp
      rw [← hq]
      rfl
    · rw [hlayer]
  · obtain ⟨m', hm', hbb, hlayer, -⟩ := replaceHead_spec mt m class_count hshape
    refine ⟨m', ?_, hbb, ?_, ?_⟩
    · show replaceHead mt
        (if path ≠ "" then set_transfer_learning_mode "fine_tune_all" m else m)
        class_count = some m'
      rw [if_pos hpath]
      show replaceHead mt (set_transfer_learning_mode "fine_tune_all" m) class_count =
        some m'
      unfold set_transfer_learning_mode
      rw [if_neg (by decide)]
      exact hm'
    · intro p hp
      rw [hbb] at hp
      exact hinit p hp
    · rw [hlayer]

/-- Witness for C6: densenet121 with one trainable backbone parameter and a
1024-wide classifier head, transfer checkpoint path `"prev.pt"`. -/
theorem c6_freeze_modes_witness :
    (∃ m', set_training_param ModelType.densenet121 "prev.pt" "freeze_all"
        ⟨[⟨true⟩], Head.classifierAttr ⟨1024, 1000, true⟩⟩ 3 = some m' ∧
      (∀ p ∈ m'.backbone, p.requires_grad = false) ∧
      (headLayer m'.head).requires_grad = true) ∧
    (∃ m', set_training_param ModelType.densenet121 "prev.pt" "fine_tune_all"
        ⟨[⟨true⟩], Head.classifierAttr ⟨1024, 1000, true⟩⟩ 3 = some m' ∧
      m'.backbone = (⟨[⟨true⟩], Head.classifierAttr ⟨1024, 1000, true⟩⟩ : Model).backbone ∧
      (∀ p ∈ m'.backbone, p.requires_grad = true) ∧
      (headLayer m'.head).requires_grad = true) :=
  c6_freeze_modes ModelType.densenet121
    ⟨[⟨true⟩], Head.classifierAttr ⟨1024, 1000, true⟩⟩ 3 "prev.pt"
    (by decide) (by decide) (by decide)

/-- C10: when `freezeAllLayers()` was called but `trainModel` runs without
a `transfer_from_model` path, `self.__model_path` stays `""`, the freezing
branch of `__set_training_param` is skipped, and every parameter of the
resulting model is trainable: the backbone is returned untouched and the
fresh head is trainable. -/
theorem c10_freeze_requires_transfer_path (mt : ModelType) (m : Model)
    (class_count : Nat) (hshape : shapeMatches mt m.head = true)
    (hinit : ∀ p ∈ m.backbone, p.requires_grad = true) :
    ∃ m', trainModel_setup mt none "freeze_all" m class_count = some m' ∧
      m'.backbone = m.backbone ∧
      (∀ p ∈ m'.backbone, p.requires_grad = true) ∧
      (headLayer m'.head).requires_grad = true := by
  obtain ⟨m', hm', hbb, hlayer, -⟩ := replaceHead_spec mt m class_count hshape
  refine ⟨m', ?_, hbb, ?_, ?_⟩
  · show replaceHead mt
      (if ("" : String) ≠ "" then set_transfer_learning_mode "freeze_all" m else m)
      class_count = some m'
    rw [if_neg (by simp)]
    exact hm'
  · intro p hp
    rw [hbb] at hp
    exact hinit p hp
  · rw [hlayer]

/-- Witness for C10: mobilenet_v2 with one trainable backbone parameter,
`freeze_all` requested but no transfer checkpoint supplied. -/
theorem c10_freeze_requires_transfer_witness :
    ∃ m', trainModel_setup ModelType.mobilenet_v2 none "freeze_all"
        ⟨[⟨true⟩], Head.twoStage ⟨1280, 1000, true⟩⟩ 7 = some m' ∧
      m'.backbone = (⟨[⟨true⟩], Head.twoStage ⟨1280, 1000, true⟩⟩ : Model).backbone ∧
      (∀ p ∈ m'.backbone, p.requires_grad = true) ∧
      (headLayer m'.head).requires_grad = true :=
  c10_freeze_requires_transfer_path ModelType.mobilenet_v2
    ⟨[⟨true⟩], Head.twoStage ⟨1280, 1000, true⟩⟩ 7 (by decide) (by decide)

/-- An abstract filesystem: the set of existing directory paths, plus the
class folders the batch-loading collaborator would find under the train
split. -/
structure FileSystem where
  dirs : List String
  class_folders : List String
  deriving DecidableEq, Repr

/-- `os.path.isdir`: false both when the path is missing and when it is not
a directory. -/
def isDir (fs : FileSystem) (p : String) : Bool := fs.dirs.contains p

/-- `os.path.join` for the split subfolders. -/
def pathJoin (a b : String) : String := a ++ "/" ++ b

/-- `setDataDirectory`, translated from

```
if os.path.isdir(data_dir):
    self.__data_dir = data_dir
    return
raise ValueError("expected a path to a directory")
```

The `DatasetError` of the spec is the raised `ValueError`. -/
def setDataDirectory (fs : FileSystem) (data_dir : String) : Except String String :=
  if isDir fs data_dir then Except.ok data_dir
  else Except.error "expected a path to a directory"

/-- `__load_data`: raises if the data directory was never set, then builds
one `ImageFolder` per split.  The `ImageFolder` collaborator fails when the
split directory `os.path.join(data_dir, x)` is absent (the spec's
`DatasetError` for a missing split); on success the class names are the
folder set. -/
def load_data (fs : FileSystem) (data_dir : String) : Except String (List String) :=
  if data_dir = "" then Except.error "The dataset directory not yet set."
  else if isDir fs (pathJoin data_dir "train") = false then
    Except.error ("missing split folder: " ++ pathJoin data_dir "train")
  else if isDir fs (pathJoin data_dir "test") = false then
    Except.error ("missing split folder: " ++ pathJoin data_dir "test")
  else Except.ok fs.class_folders

/-- The beginning of `trainModel`: `self.__load_data(batch_size)` runs
first, and only afterwards does `self.__set_training_param()` build the
model.  A dataset failure therefore surfaces before any model is built. -/
def trainModel_start (fs : FileSystem) (mt : ModelType) (data_dir : String)
    (transfer_from_model : Option String) (mode : String) (m : Model) :
    Except String Model :=
  match load_data fs data_dir with
  | Except.error e => Except.error e
  | Except.ok class_names =>
    match trainModel_setup mt transfer_from_model mode m class_names.length with
    | some m' => Except.ok m'
    | none => Except.error "head shape mismatch"

/-- C9: binding the dataset fails when the root directory is missing or not
a directory (`setDataDirectory` raises), or when a required `train` or
`test` split subfolder is absent (`__load_data` raises), and in the latter
case `trainModel` surfaces the error before any model is built: the run
returns the dataset error and never produces a model. -/
theorem c9_dataset_binding_errors (fs : FileSystem) (data_dir : String) :
    (isDir fs data_dir = false →
      setDataDirectory fs data_dir = Except.error "expected a path to a directory") ∧
    (∀ (mt : ModelType) (tfm : Option String) (mode : String) (m : Model),
      (isDir fs (pathJoin data_dir "train") = false ∨
        isDir fs (pathJoin data_dir "test") = false) →
      (∃ e, load_data fs data_dir = Except.error e) ∧
      (∃ e, trainModel_start fs mt data_dir tfm mode m = Except.error e) ∧
      (∀ m', trainModel_start fs mt data_dir tfm mode m ≠ Except.ok m')) := by
  constructor
  · intro h
    unfold setDataDirectory
    rw [h]
    rfl
  · intro mt tfm mode m hsplit
    have hload : ∃ e, load_data fs data_dir = Except.error e := by
      unfold load_data
      by_cases hd : data_dir = ""
      · rw [if_pos hd]
        exact ⟨_, rfl⟩
      · rw [if_neg hd]
        rcases hsplit with h | h
        · rw [if_pos h]
          exact ⟨_, rfl⟩
        · by_cases htr : isDir fs (pathJoin data_dir "train") = false
          · rw [if_pos htr]
            exact ⟨_, rfl⟩
          · rw [if_neg htr, if_pos h]
            exact ⟨_, rfl⟩
    obtain ⟨e, he⟩ := hload
    have hrun : trainModel_start fs mt data_dir tfm mode m = Except.error e := by
      unfold trainModel_start
      rw [he]
    exact ⟨⟨e, he⟩, ⟨e, hrun⟩, by intro m' hok; rw [hrun] at hok; cases hok⟩

/-- Witness for C9 on a concrete filesystem: `"nope"` is not a directory,
and the directory `"data"` exists but has no `data/train` split. -/
theorem c9_dataset_binding_witness :
    setDataDirectory ⟨["data", "data/test"], []⟩ "nope" =
        Except.error "expected a path to a directory" ∧
    (∃ e, load_data ⟨["data", "data/test"], []⟩ "data" = Except.error e) ∧
    (∃ e, trainModel_start ⟨["data", "data/test"], []⟩ ModelType.resnet50 "data"
        none "fine_tune_all" ⟨[], Head.fcAttr ⟨2048, 1000, true⟩⟩ =
      Except.error e) :=
  ⟨(c9_dataset_binding_errors ⟨["data", "data/test"], []⟩ "nope").1 (by decide),
    ((c9_dataset_binding_errors ⟨["data", "data/test"], []⟩ "data").2
      ModelType.resnet50 none "fine_tune_all" ⟨[], Head.fcAttr ⟨2048, 1000, true⟩⟩
      (Or.inl (by decide))).1,
    (((c9_dataset_binding_errors ⟨["data", "data/test"], []⟩ "data").2
      ModelType.resnet50 none "fine_tune_all" ⟨[], Head.fcAttr ⟨2048, 1000, true⟩⟩
      (Or.inl (by decide))).2).1⟩

/-- The four trailing parameter names of the legacy densenet key pattern,
`(?:weight|bias|running_mean|running_var)`, as character lists (state-dict
keys are modelled as `List Char`). -/
def paramWords : List (List Char) :=
  ["weight".data, "bias".data, "running_mean".data, "running_var".data]

/-- The three stage names of the pattern, `(?:norm|relu|conv)`. -/
def stageWords : List (List Char) :=
  ["norm".data, "relu".data, "conv".data]

/-- Drops an expected literal from the front of a character list. -/
def dropLit : List Char → List Char → Option (List Char)
  | [], rest => some rest
  | _ :: _, [] => none
  | p :: ps, c :: cs => if c = p then dropLit ps cs else none

/-- Consumes a literal dot. -/
def expectDot : List Char → Option (List Char)
  | c :: rest => if c = '.' then some rest else none
  | [] => none

/-- Consumes the one-character class `[12]`. -/
def expectDigit12 : List Char → Option (Char × List Char)
  | c :: rest => if c = '1' ∨ c = '2' then some (c, rest) else none
  | [] => none

/-- The legacy-densenet key pattern of `__set_transfer_learning_mode`,

```
pattern = re.compile(
        r"^(.*denselayer\d+\.(?:norm|relu|conv))\.((?:[12])\."
        "(?:weight|bias|running_mean|running_var))$"
        )
```

applied to the reversed key.  The pattern is anchored at both ends and its
alternation words contain no dots, so the decomposition of a matching key
is unique and parsing from the right end is deterministic: last dot-free
segment is the parameter word, then `[12]`, then the stage word, then the
digit run `\d+` preceded by the literal `denselayer`, then the `.*` part
(any characters but newline, matching Python's default `.`; `\d` is
modelled as an ASCII digit).  On a match the rewritten key
`res.group(1) + res.group(2)` is returned: the original key with the dot
between the stage word and the `[12]` digit removed. -/
def matchRev (r : List Char) : Option (List Char) :=
  if paramWords.contains (r.takeWhile (fun c => c ≠ '.')).reverse = true then
    (expectDot (r.dropWhile (fun c => c ≠ '.'))).bind (fun r2 =>
      (expectDigit12 r2).bind (fun dr =>
        (expectDot dr.2).bind (fun r4 =>
          if stageWords.contains (r4.takeWhile (fun c => c ≠ '.')).reverse = true then
            (expectDot (r4.dropWhile (fun c => c ≠ '.'))).bind (fun r6 =>
              if r6.takeWhile Char.isDigit ≠ [] then
                (dropLit "denselayer".data.reverse (r6.dropWhile Char.isDigit)).bind
                  (fun aR =>
                    if aR.contains '\n' = false then
                      some (aR.reverse ++ "denselayer".data ++
                        (r6.takeWhile Char.isDigit).reverse ++ ['.'] ++
                        (r4.takeWhile (fun c => c ≠ '.')).reverse ++ [dr.1] ++
                        ['.'] ++ (r.takeWhile (fun c => c ≠ '.')).reverse)
                    else none)
              else none)
          else none)))
  else none

/-- `pattern.match(key)` followed by `res.group(1) + res.group(2)`. -/
def rewriteKey (key : List Char) : Option (List Char) :=
  matchRev key.reverse

/-- One iteration of the key loop: a matching key is replaced by its
rewrite (`state_dict[new_key] = state_dict[key]; del state_dict[key]`),
a non-matching key stays. -/
def remapKey (key : List Char) : List Char :=
  (rewriteKey key).getD key

/-- Effect of the whole remapping loop on the state-dict's key set. -/
def remapKeys (keys : Finset (List Char)) : Finset (List Char) :=
  keys.image remapKey

/-- Inversion for `expectDigit12` on a non-empty input. -/
lemma expectDigit12_cons {c : Char} {rest : List Char} {dr : Char × List Char}
    (h : expectDigit12 (c :: rest) = some dr) :
    dr = (c, rest) ∧ (c = '1' ∨ c = '2') := by
  have hdef : expectDigit12 (c :: rest) =
      if c = '1' ∨ c = '2' then some (c, rest) else none := rfl
  rw [hdef] at h
  split at h
  next hcond => exact ⟨(Option.some.inj h).symm, hcond⟩
  next => exact Option.noConfusion h

/-- A successful `expectDigit12` consumed a `'1'` or a `'2'`. -/
lemma expectDigit12_some {l : List Char} {dr : Char × List Char}
    (h : expectDigit12 l = some dr) : dr.1 = '1' ∨ dr.1 = '2' := by
  cases l with
  | nil => exact Option.noConfusion h
  | cons c rest =>
    obtain ⟨hdr, hcond⟩ := expectDigit12_cons h
    rw [hdr]
    exact hcond

/-- Structure of a rewritten key: it is
`a ++ "denselayer" ++ ds ++ "." ++ st ++ d ++ "." ++ w` for a stage word
`st`, a digit `d`, and a parameter word `w` — the dot between `st` and `d`
is gone. -/
lemma rewriteKey_shape {key k' : List Char} (h : rewriteKey key = some k') :
    ∃ (a ds st w : List Char) (d : Char),
      paramWords.contains w = true ∧
      stageWords.contains st = true ∧
      (d = '1' ∨ d = '2') ∧
      k' = a ++ "denselayer".data ++ ds ++ ['.'] ++ st ++ [d] ++ ['.'] ++ w := by
  unfold rewriteKey at h
  simp only [matchRev, Option.bind_eq_some, Option.ite_none_right_eq_some,
    Option.some.injEq] at h
  obtain ⟨hw, r2, hr2, dr, hdr, r4, hr4, hst, r6, hr6, hds, aR, haR, hnl, hk⟩ := h
  exact ⟨aR.reverse, (r6.takeWhile Char.isDigit).reverse,
    (r4.takeWhile (fun c => c ≠ '.')).reverse,
    (key.reverse.takeWhile (fun c => c ≠ '.')).reverse, dr.1,
    hw, hst, expectDigit12_some hdr, hk.symm⟩

/-- The parser rejects any key whose reversed form has a parameter-word
segment, a dot, one character, and then a non-dot character: the pattern
requires a dot between the `[12]` digit and the stage word. -/
lemma matchRev_stage_none (wR : List Char) (d c : Char) (rest : List Char)
    (hwR : ∀ x ∈ wR, x ≠ '.')
    (hc : c ≠ '.') :
    matchRev (wR ++ '.' :: d :: c :: rest) = none := by
  have hwR' : ∀ x ∈ wR, (fun y => decide (y ≠ '.')) x = true := by
    intro x hx
    simpa using hwR x hx
  have h1 : (wR ++ '.' :: d :: c :: rest).takeWhile (fun y => y ≠ '.') = wR := by
    rw [List.takeWhile_append_of_pos hwR']
    simp
  have h2 : (wR ++ '.' :: d :: c :: rest).dropWhile (fun y => y ≠ '.') =
      '.' :: d :: c :: rest := by
    rw [List.dropWhile_append_of_pos hwR']
    simp
  unfold matchRev
  rw [h1, h2]
  split
  · have he : expectDot ('.' :: d :: c :: rest) = some (d :: c :: rest) := by
      simp [expectDot]
    rw [he, Option.some_bind]
    cases h12 : expectDigit12 (d :: c :: rest) with
    | none => rfl
    | some dr =>
      have hdr : dr.2 = c :: rest := by
        rw [(expectDigit12_cons h12).1]
      rw [Option.some_bind, hdr]
      have hce : expectDot (c :: rest) = none := by
        simp [expectDot, hc]
      rw [hce]
      rfl
  · rfl

/-- A key produced by the rewrite no longer matches the dotted pattern:
its tail reads `st ++ d ++ "." ++ w`, and the missing dot between the stage
word and the digit makes the anchored pattern fail. -/
lemma rewriteKey_result_none (a ds st w : List Char) (d : Char)
    (hw : paramWords.contains w = true)
    (hst : stageWords.contains st = true) :
    rewriteKey (a ++ "denselayer".data ++ ds ++ ['.'] ++ st ++ [d] ++ ['.'] ++ w) =
      none := by
  have hw' : w ∈ paramWords := by simpa using hw
  have hst' : st ∈ stageWords := by simpa using hst
  have hrev : (a ++ "denselayer".data ++ ds ++ ['.'] ++ st ++ [d] ++ ['.'] ++ w).reverse =
      w.reverse ++ '.' :: d :: (st.reverse ++
        ('.' :: (ds.reverse ++ ("denselayer".data.reverse ++ a.reverse)))) := by
    simp
  unfold rewriteKey
  rw [hrev]
  have hwnd : ∀ x ∈ w.reverse, x ≠ '.' := by
    simp only [paramWords, List.mem_cons, List.not_mem_nil, or_false] at hw'
    rcases hw' with rfl | rfl | rfl | rfl <;> decide
  simp only [stageWords, List.mem_cons, List.not_mem_nil, or_false] at hst'
  rcases hst' with rfl | rfl | rfl <;>
    exact matchRev_stage_none _ _ _ _ hwnd (by decide)

/-- Applying the key loop twice to one key is the same as applying it
once. -/
lemma remapKey_idem (k : List Char) : remapKey (remapKey k) = remapKey k := by
  cases h : rewriteKey k with
  | none =>
    have hk : remapKey k = k := by
      unfold remapKey
      rw [h]
      rfl
    rw [hk]
    exact hk
  | some k' =>
    have hk : remapKey k = k' := by
      unfold remapKey
      rw [h]
      rfl
    obtain ⟨a, ds, st, w, d, hw, hst, -, hk'⟩ := rewriteKey_shape h
    have hnone : rewriteKey k' = none := by
      rw [hk']
      exact rewriteKey_result_none a ds st w d hw hst
    rw [hk]
    unfold remapKey
    rw [hnone]
    rfl

/-- C7: the legacy densenet key remapping is a fixed point on key sets:
for every key set, applying the rewrite twice produces the same key set as
applying it once, because a key produced by the rewrite no longer matches
the dotted pattern. -/
theorem c7_remap_fixed_point (keys : Finset (List Char)) :
    remapKeys (remapKeys keys) = remapKeys keys := by
  unfold remapKeys
  rw [Finset.image_image]
  exact Finset.image_congr (fun k _ => remapKey_idem k)

end ImageAI
